import Mathlib

/-!
Verification of the APTITUDE-AI quiz application (`src/App.tsx`).

The file gives a shallow embedding of the application's core logic:
the question loader (fetch normalization, grouping, slugs), the
assessment flow state machine (welcome / category-selection / testing /
results with its event handlers), and the scoring / summary functions.
JavaScript numbers used for scores and indices are modelled as `Nat`
(they are only ever incremented from 0), percentages computed with `/`
are modelled as `ℚ`, and `answer.charCodeAt(0)` — which yields `NaN` on
an empty string — is modelled as `Option Int` (`none` standing for
`NaN`, which compares unequal to every number, exactly as `===` does).
Handlers that would throw a `TypeError` in JavaScript (indexing into
`undefined`, non-null assertion on `null`) return `none` in an
`Option`-valued result; React applies no state update when a handler
throws before its `setState` calls, so a thrown call is "no transition".
-/

namespace AptitudeAI

/-- Model of `interface RawQuestion` from `App.tsx`: one record of `questions.json`. -/
structure RawQuestion where
  category : String
  question : String
  options : List String
  answer : String
deriving DecidableEq, Repr

/-- Model of `interface Question` from `App.tsx` (normalized form).
`correct` models the JS field `correct : number` produced by
`q.answer.charCodeAt(0) - 65`: `none` is the `NaN` arising from
`"".charCodeAt(0)`, and `some k` an ordinary (possibly negative or
out-of-range) integer. -/
structure Question where
  id : Nat
  question : String
  options : List String
  correct : Option Int
  explanation : Option String
deriving DecidableEq, Repr

/-- Model of `interface TestCategory` from `App.tsx`. The `icon : React.ReactNode`
field is pure presentation (an external React value) and is omitted from
the embedding. -/
structure TestCategory where
  id : String
  name : String
  questions : List Question
deriving DecidableEq, Repr

/-- JS whitespace characters matched by the regex class `\s` that can occur
in ordinary category-name strings. -/
def isWs (c : Char) : Bool :=
  c == ' ' || c == '\t' || c == '\n' || c == '\r' || c == '\x0b' || c == '\x0c'

/-- Per-character model of JS `String.prototype.toLowerCase` on the basic
latin range (category names are ASCII). -/
def jsLower (c : Char) : Char := c.toLower

/-- Model of `replace(/\s+/g, '-')`: each maximal run of whitespace becomes a single
hyphen.  The boolean argument records whether the previous character was
whitespace (i.e. whether we are inside a run whose hyphen is already
emitted). -/
def collapseWsAux : Bool → List Char → List Char
  | _, [] => []
  | prevWs, c :: rest =>
    if isWs c then
      (if prevWs then [] else ['-']) ++ collapseWsAux true rest
    else
      c :: collapseWsAux false rest

/-- The slug `category.toLowerCase().replace(/\s+/g, '-')` — the category slug
(`App.tsx` line 62). -/
def slugify (s : String) : String :=
  String.mk (collapseWsAux false (s.toList.map jsLower))

/-- Model of `q.answer.charCodeAt(0) - 'A'.charCodeAt(0)` (`App.tsx` line 48).
`charCodeAt(0)` of the empty string is `NaN`, modelled `none`. -/
def decodeAnswer (a : String) : Option Int :=
  (a.toList.head?).map (fun ch => (ch.toNat : Int) - 65)

/-- The body of the `data.forEach` loop that builds `formatted`
(`App.tsx` lines 47–54): global sequential ids starting at 1, options kept
as-is, `correct` decoded from the answer letter, no explanation. -/
def formatQuestion (index : Nat) (q : RawQuestion) : Question :=
  { id := index + 1
    question := q.question
    options := q.options
    correct := decodeAnswer q.answer
    explanation := none }

/-- Model of `grouped[q.category].push(formatted)` on a `Record<string, Question[]>`,
creating the bucket on first encounter (JS object keys keep insertion
order, so the record is modelled as an association list). -/
def insertGrouped (g : List (String × List Question)) (cat : String)
    (q : Question) : List (String × List Question) :=
  match g with
  | [] => [(cat, [q])]
  | (c, qs) :: rest =>
    if c = cat then (c, qs ++ [q]) :: rest
    else (c, qs) :: insertGrouped rest cat q

/-- The `data.forEach((q, index) => …)` loop over the enumerated records. -/
def buildGrouped (g : List (String × List Question)) :
    List (Nat × RawQuestion) → List (String × List Question)
  | [] => g
  | iq :: rest =>
    buildGrouped (insertGrouped g iq.2.category (formatQuestion iq.1 iq.2)) rest

/-- The grouped record after the whole `forEach` loop. -/
def groupQuestions (data : List RawQuestion) : List (String × List Question) :=
  buildGrouped [] data.enum

/-- Model of `Object.entries(grouped).map(…)` (`App.tsx` lines 61–66): materialize
each bucket as a `TestCategory` with a slugified id. -/
def loadCategories (data : List RawQuestion) : List TestCategory :=
  (groupQuestions data).map fun p =>
    { id := slugify p.1, name := p.1, questions := p.2 }

/-- All loaded questions, in catalog order. -/
def allQuestions (cats : List TestCategory) : List Question :=
  (cats.map TestCategory.questions).flatten

/-- Does a normalized question satisfy the data-model invariant
`0 <= correctIndex < length(options)`? -/
def correctIndexInRange (q : Question) : Bool :=
  match q.correct with
  | none => false
  | some k => 0 ≤ k && k < (q.options.length : Int)

/-- Model of `type AppState` from `App.tsx`. -/
inductive AppState where
  | welcome
  | categorySelection
  | testing
  | results
deriving DecidableEq, Repr

/-- The component state of `App` relevant to the flow controller: the
`useState` hooks `currentState`, `selectedCategory`,
`currentQuestionIndex`, `userAnswers`, `showExplanation`, `score`,
`voiceOn` (`App.tsx` lines 32–38).  `testCategories` is set once by the
load effect and is modelled as an ambient parameter of the step
relation. -/
structure AppModel where
  currentState : AppState
  selectedCategory : Option TestCategory
  currentQuestionIndex : Nat
  userAnswers : List Nat
  showExplanation : Bool
  score : Nat
  voiceOn : Bool
deriving DecidableEq, Repr

/-- The initial values of the state hooks. -/
def initialState : AppModel :=
  { currentState := .welcome
    selectedCategory := none
    currentQuestionIndex := 0
    userAnswers := []
    showExplanation := false
    score := 0
    voiceOn := true }

/-- Model of `handleStart` (`App.tsx` line 83). -/
def handleStart (s : AppModel) : AppModel :=
  { s with currentState := .categorySelection }

/-- Model of `handleCategorySelect` (`App.tsx` lines 87–94). -/
def handleCategorySelect (s : AppModel) (category : TestCategory) : AppModel :=
  { s with currentState := .testing
           selectedCategory := some category
           currentQuestionIndex := 0
           userAnswers := []
           showExplanation := false
           score := 0 }

/-- Model of `handleAnswer` (`App.tsx` lines 114–128).  The speech-synthesis cancel
is a pure side effect on an external collaborator and leaves the model
unchanged.  After the `showExplanation` early return, JS evaluates
`selectedCategory!.questions[currentQuestionIndex].correct`; when
`selectedCategory` is `null` or the index is out of bounds this throws a
`TypeError` before any `setState`, modelled by `none`. -/
def handleAnswer (s : AppModel) (answerIndex : Nat) : Option AppModel :=
  if s.showExplanation then
    some s
  else
    match s.selectedCategory with
    | none => none
    | some c =>
      match c.questions.get? s.currentQuestionIndex with
      | none => none
      | some q =>
        let isCorrect := q.correct = some (answerIndex : Int)
        some { s with
                userAnswers := s.userAnswers ++ [answerIndex]
                score := if isCorrect then s.score + 1 else s.score
                showExplanation := true }

/-- Model of `handleNext` (`App.tsx` lines 130–139).  `selectedCategory!` on `null`
throws, modelled by `none`.  JS computes `questions.length - 1` on numbers;
for a non-empty list `Nat` subtraction agrees, and for the empty list both
make the comparison false, so `Nat` subtraction is faithful. -/
def handleNext (s : AppModel) : Option AppModel :=
  match s.selectedCategory with
  | none => none
  | some c =>
    if s.currentQuestionIndex < c.questions.length - 1 then
      some { s with currentQuestionIndex := s.currentQuestionIndex + 1
                    showExplanation := false }
    else
      some { s with currentState := .results }

/-- Model of `resetTest` (`App.tsx` lines 141–148). -/
def resetTest (s : AppModel) : AppModel :=
  { s with currentState := .welcome
           selectedCategory := none
           currentQuestionIndex := 0
           userAnswers := []
           showExplanation := false
           score := 0 }

/-- The voice toggle button (`App.tsx` lines 232–236). -/
def toggleVoice (s : AppModel) : AppModel :=
  { s with voiceOn := !s.voiceOn }

/-- Model of `getScoreMessage` (`App.tsx` lines 150–156): note that the thresholds
are applied to the UNROUNDED percentage `(score / total) * 100`, modelled
exactly as a rational. -/
def getScoreMessage (score total : Nat) : String :=
  let percentage : ℚ := (score : ℚ) / (total : ℚ) * 100
  if percentage ≥ 80 then "Excellent performance."
  else if percentage ≥ 60 then "Good performance."
  else if percentage ≥ 40 then "Average performance."
  else "Needs improvement."

/-- Model of `Math.round((score / selectedCategory.questions.length) * 100)` shown
on the results screen (`App.tsx` line 327).  `Math.round` rounds half
towards `+∞`, as does Mathlib `round` (`round x = ⌊x + 1/2⌋`). -/
def resultsPercentage (score total : Nat) : Int :=
  round ((score : ℚ) / (total : ℚ) * 100)

/-- Modelled from the spec (§4.4): the spec's qualitative message as a
function of the ROUNDED `accuracyPercent`, used only to compare the
spec's claim with the source's `getScoreMessage`. -/
def specMessageOfPercent (accuracyPercent : Int) : String :=
  if accuracyPercent ≥ 80 then "Excellent performance."
  else if accuracyPercent ≥ 60 then "Good performance."
  else if accuracyPercent ≥ 40 then "Average performance."
  else "Needs improvement."

/-- The number of positions `i` with `answers[i] == questions[i].correct` —
the count of correctly answered questions. -/
def countCorrect : List Nat → List Question → Nat
  | [], _ => 0
  | _ :: _, [] => 0
  | a :: as, q :: qs =>
    (if q.correct = some (a : Int) then 1 else 0) + countCorrect as qs

/-- One user-triggered event of the running app, as the rendered UI
exposes it: `handleStart` is reachable only from the welcome screen,
`handleCategorySelect` only from the category list (whose entries come
from the loaded catalog `cats`), answer buttons only on the testing
screen while they are not `disabled` (i.e. while `showExplanation` is
false), the next button only on the testing screen once
`showExplanation` is true, reset only from the results screen, and the
voice toggle on the testing screen.  Answer events carry an arbitrary
`Nat` index (a superset of the indices the UI can produce, which makes
the invariants below strictly stronger). -/
inductive Step (cats : List TestCategory) : AppModel → AppModel → Prop where
  | start (s : AppModel) :
      s.currentState = .welcome → Step cats s (handleStart s)
  | select (s : AppModel) (c : TestCategory) :
      s.currentState = .categorySelection → c ∈ cats →
      Step cats s (handleCategorySelect s c)
  | answer (s t : AppModel) (i : Nat) :
      s.currentState = .testing → s.showExplanation = false →
      handleAnswer s i = some t → Step cats s t
  | next (s t : AppModel) :
      s.currentState = .testing → s.showExplanation = true →
      handleNext s = some t → Step cats s t
  | reset (s : AppModel) :
      s.currentState = .results → Step cats s (resetTest s)
  | toggle (s : AppModel) :
      s.currentState = .testing → Step cats s (toggleVoice s)

/-- States reachable from the initial mount under UI events. -/
def Reachable (cats : List TestCategory) (s : AppModel) : Prop :=
  Relation.ReflTransGen (Step cats) initialState s

/-- The session invariant maintained by every event handler: whenever a
category is selected the app is on the testing or results screen, the
score is exactly the number of correctly answered questions, the current
index is in bounds, and the number of recorded answers tracks the
position (while testing) or equals the total (at results). -/
def SessionInv (cats : List TestCategory) (s : AppModel) : Prop :=
  match s.selectedCategory with
  | none => s.userAnswers = [] ∧ s.score = 0
  | some c =>
      c ∈ cats ∧
      s.score = countCorrect s.userAnswers c.questions ∧
      s.currentQuestionIndex < c.questions.length ∧
      ((s.currentState = .testing ∧
          s.userAnswers.length =
            s.currentQuestionIndex + (if s.showExplanation then 1 else 0)) ∨
        (s.currentState = .results ∧
          s.userAnswers.length = c.questions.length))

/-! Concrete data used by witnesses and counterexamples. -/

/-- A two-question demo category. -/
def demoCat : TestCategory :=
  { id := "demo"
    name := "Demo"
    questions :=
      [ { id := 1, question := "Q1", options := ["a", "b"],
          correct := some 1, explanation := none },
        { id := 2, question := "Q2", options := ["x", "y"],
          correct := some 0, explanation := none } ] }

/-- The state after pressing BEGIN ASSESSMENT on the initial screen. -/
def demoSelecting : AppModel := handleStart initialState

/-- The state after then selecting `demoCat`. -/
def demoTesting : AppModel := handleCategorySelect demoSelecting demoCat

/-- The state `demoTesting` after answering question 0 with index 1 (correct). -/
def demoAnswered : AppModel :=
  { demoTesting with userAnswers := [1], score := 1, showExplanation := true }

/-- A raw record whose answer letter `"Z"` decodes outside the four
options. -/
def badRecord : RawQuestion :=
  { category := "General"
    question := "Q?"
    options := ["a", "b", "c", "d"]
    answer := "Z" }

/-- A malformed normalized question: `correct` is 25 but there are only
four options. -/
def badQuestion : Question :=
  { id := 1, question := "Q?", options := ["a", "b", "c", "d"],
    correct := some 25, explanation := none }

/-- A category holding the malformed question. -/
def badCat : TestCategory :=
  { id := "general", name := "General", questions := [badQuestion] }

/-- A testing-screen state positioned on the malformed question. -/
def badTesting : AppModel :=
  { currentState := .testing
    selectedCategory := some badCat
    currentQuestionIndex := 0
    userAnswers := []
    showExplanation := false
    score := 0
    voiceOn := true }

end AptitudeAI

namespace AptitudeAI

/-! ### Helper lemmas -/

theorem jsLower_eq_of_isWs {c : Char} (h : isWs c = true) : jsLower c = c := by
  simp only [isWs, Bool.or_eq_true, beq_iff_eq] at h
  rcases h with ((((rfl | rfl) | rfl) | rfl) | rfl) | rfl <;> decide

theorem isWs_jsLower (c : Char) : isWs (jsLower c) = isWs c := by
  have hlow : jsLower c =
      if c.toNat ≥ 65 ∧ c.toNat ≤ 90 then Char.ofNat (c.toNat + 32) else c := rfl
  by_cases hr : c.toNat ≥ 65 ∧ c.toNat ≤ 90
  · obtain ⟨h1, h2⟩ := hr
    rw [hlow, if_pos ⟨h1, h2⟩]
    have hf : isWs c = false := by
      cases hws : isWs c
      · rfl
      · exfalso
        simp only [isWs, Bool.or_eq_true, beq_iff_eq] at hws
        rcases hws with ((((rfl | rfl) | rfl) | rfl) | rfl) | rfl <;>
          exact absurd h1 (by decide)
    rw [hf]
    generalize c.toNat = m at h1 h2 ⊢
    interval_cases m <;> decide
  · rw [hlow, if_neg hr]

theorem collapseWsAux_nonWs_append (u t : List Char)
    (hu : ∀ c ∈ u, isWs c = false) :
    collapseWsAux false (u ++ t) = u ++ collapseWsAux false t := by
  induction u with
  | nil => rfl
  | cons c u ih =>
    have hc := hu c (List.mem_cons_self c u)
    simp only [List.cons_append, collapseWsAux, hc, Bool.false_eq_true,
      if_false, List.cons.injEq, true_and]
    exact ih fun d hd => hu d (List.mem_cons_of_mem c hd)

theorem collapseWsAux_nonWs_id (u : List Char) (b : Bool)
    (hu : ∀ c ∈ u, isWs c = false) : collapseWsAux b u = u := by
  induction u generalizing b with
  | nil => rfl
  | cons c u ih =>
    have hc := hu c (List.mem_cons_self c u)
    simp only [collapseWsAux, hc, Bool.false_eq_true, if_false,
      List.cons.injEq, true_and]
    exact ih false fun d hd => hu d (List.mem_cons_of_mem c hd)

theorem collapseWsAux_skipWs (w t : List Char)
    (hw : ∀ c ∈ w, isWs c = true) :
    collapseWsAux true (w ++ t) = collapseWsAux true t := by
  induction w with
  | nil => rfl
  | cons c w ih =>
    have hc := hw c (List.mem_cons_self c w)
    simp only [List.cons_append, collapseWsAux, hc, if_true, ite_true,
      List.nil_append]
    exact ih fun d hd => hw d (List.mem_cons_of_mem c hd)

theorem collapseWsAux_wsRun (w t : List Char)
    (hw : ∀ c ∈ w, isWs c = true) (hne : w ≠ []) :
    collapseWsAux false (w ++ t) = '-' :: collapseWsAux true t := by
  cases w with
  | nil => exact absurd rfl hne
  | cons c w =>
    have hc := hw c (List.mem_cons_self c w)
    simp only [List.cons_append, collapseWsAux, hc, if_true, Bool.false_eq_true,
      if_false, List.singleton_append, List.cons.injEq, true_and]
    exact collapseWsAux_skipWs w t fun d hd => hw d (List.mem_cons_of_mem c hd)

end AptitudeAI

namespace AptitudeAI

theorem countCorrect_le_length (as : List Nat) (qs : List Question) :
    countCorrect as qs ≤ as.length := by
  induction as generalizing qs with
  | nil => simp [countCorrect]
  | cons a as ih =>
    cases qs with
    | nil => simp [countCorrect]
    | cons q qs =>
      have := ih qs
      simp only [countCorrect, List.length_cons]
      split <;> omega

theorem countCorrect_append (as : List Nat) (qs : List Question) (a : Nat)
    (q : Question) (h : qs.get? as.length = some q) :
    countCorrect (as ++ [a]) qs =
      countCorrect as qs + (if q.correct = some (a : Int) then 1 else 0) := by
  induction as generalizing qs with
  | nil =>
    cases qs with
    | nil => simp at h
    | cons q0 qs =>
      simp only [List.length_nil, List.get?_cons_zero, Option.some.injEq] at h
      subst h
      simp [countCorrect]
  | cons a0 as ih =>
    cases qs with
    | nil => simp at h
    | cons q0 qs =>
      simp only [List.length_cons, List.get?_cons_succ] at h
      simp only [List.cons_append, countCorrect, List.append_eq, ih qs h,
        Nat.add_assoc]

end AptitudeAI

namespace AptitudeAI

/-! ### Claim C1 — score message thresholds -/

/-- C1 (counterexample): the claim says the qualitative message is chosen
by thresholding the ROUNDED accuracy percentage, so a session with 35
correct out of 44 (unrounded 79.54…%, rounded 80%) would have to read
"Excellent performance."; the code thresholds the unrounded percentage
and produces "Good performance." while displaying 80% accuracy. -/
theorem claim_C1_counterexample :
    resultsPercentage 35 44 = 80 ∧
    specMessageOfPercent (resultsPercentage 35 44) = "Excellent performance." ∧
    getScoreMessage 35 44 = "Good performance." := by
  have h80 : resultsPercentage 35 44 = 80 := by
    simp only [resultsPercentage]
    rw [round_eq, Int.floor_eq_iff]
    norm_num
  refine ⟨h80, ?_, ?_⟩
  · rw [h80]; decide
  · simp only [getScoreMessage]
    norm_num

/-- C1 (amended): the qualitative message is chosen by thresholding the
UNROUNDED percentage `score / totalQuestions * 100` (the rounded value is
only what the results screen displays): the message is
"Excellent performance." iff the percentage is ≥ 80, "Good performance."
iff it is in [60, 80), "Average performance." iff it is in [40, 60), and
"Needs improvement." iff it is below 40. -/
theorem claim_C1 (score total : Nat) (h : 0 < total) :
    (getScoreMessage score total = "Excellent performance." ↔
        80 ≤ (score : ℚ) / (total : ℚ) * 100) ∧
    (getScoreMessage score total = "Good performance." ↔
        60 ≤ (score : ℚ) / (total : ℚ) * 100 ∧
          (score : ℚ) / (total : ℚ) * 100 < 80) ∧
    (getScoreMessage score total = "Average performance." ↔
        40 ≤ (score : ℚ) / (total : ℚ) * 100 ∧
          (score : ℚ) / (total : ℚ) * 100 < 60) ∧
    (getScoreMessage score total = "Needs improvement." ↔
        (score : ℚ) / (total : ℚ) * 100 < 40) := by
  simp only [getScoreMessage, ge_iff_le]
  split_ifs with h1 h2 h3 <;>
    refine ⟨⟨fun hx => ?_, fun hx => ?_⟩, ⟨fun hx => ?_, fun hx => ?_⟩,
      ⟨fun hx => ?_, fun hx => ?_⟩, ⟨fun hx => ?_, fun hx => ?_⟩⟩ <;>
    first
      | rfl
      | linarith
      | exact absurd hx (by decide)
      | exact ⟨by linarith, by linarith⟩

/-- C1 (witness): at 4 correct out of 5 the percentage is exactly 80 and
the message is "Excellent performance.". -/
theorem claim_C1_witness :
    getScoreMessage 4 5 = "Excellent performance." ↔
      80 ≤ ((4 : Nat) : ℚ) / ((5 : Nat) : ℚ) * 100 :=
  (claim_C1 4 5 (by norm_num)).1

/-! ### Claim C2 — advance before an answer is submitted -/

/-- C2 (counterexample): `demoTesting` is a Testing-state session whose
current question is unanswered (`showExplanation` is false), yet
`advance()` (`handleNext`) moves `currentQuestionIndex` from 0 to 1 — it
is not a no-op as the claim states. -/
theorem claim_C2_counterexample :
    demoTesting.currentState = AppState.testing ∧
    demoTesting.showExplanation = false ∧
    demoTesting.currentQuestionIndex = 0 ∧
    (handleNext demoTesting).map AppModel.currentQuestionIndex = some 1 := by
  decide

/-- C2 (amended): for every Testing-state session in which the current
question's answer has not yet been submitted, calling `advance()` never
throws and leaves `answers`, `score` and the selected category unchanged,
but it is NOT a no-op: it advances `currentQuestionIndex` by one (staying
in Testing) or, from the last question, transitions to Results.  The
rendered UI prevents this call by showing the next button only once an
answer is submitted. -/
theorem claim_C2 (s : AppModel) (c : TestCategory)
    (hT : s.currentState = AppState.testing)
    (hc : s.selectedCategory = some c)
    (hse : s.showExplanation = false) :
    ∃ t, handleNext s = some t ∧ t.userAnswers = s.userAnswers ∧
      t.score = s.score ∧ t.selectedCategory = s.selectedCategory ∧
      ((s.currentQuestionIndex < c.questions.length - 1 ∧
          t.currentQuestionIndex = s.currentQuestionIndex + 1 ∧
          t.currentState = AppState.testing ∧ t.showExplanation = false) ∨
        (¬ s.currentQuestionIndex < c.questions.length - 1 ∧
          t.currentState = AppState.results ∧
          t.currentQuestionIndex = s.currentQuestionIndex ∧
          t.showExplanation = false)) := by
  simp only [handleNext, hc]
  by_cases hlt : s.currentQuestionIndex < c.questions.length - 1
  · rw [if_pos hlt]
    exact ⟨_, rfl, rfl, rfl, rfl, Or.inl ⟨hlt, rfl, hT, rfl⟩⟩
  · rw [if_neg hlt]
    exact ⟨_, rfl, rfl, rfl, rfl, Or.inr ⟨hlt, rfl, rfl, hse⟩⟩

/-- C2 (witness): the amended statement at the concrete unanswered
session `demoTesting`. -/
theorem claim_C2_witness :
    ∃ t, handleNext demoTesting = some t ∧
      t.userAnswers = demoTesting.userAnswers ∧
      t.score = demoTesting.score ∧
      t.selectedCategory = demoTesting.selectedCategory ∧
      ((demoTesting.currentQuestionIndex < demoCat.questions.length - 1 ∧
          t.currentQuestionIndex = demoTesting.currentQuestionIndex + 1 ∧
          t.currentState = AppState.testing ∧ t.showExplanation = false) ∨
        (¬ demoTesting.currentQuestionIndex < demoCat.questions.length - 1 ∧
          t.currentState = AppState.results ∧
          t.currentQuestionIndex = demoTesting.currentQuestionIndex ∧
          t.showExplanation = false)) :=
  claim_C2 demoTesting demoCat rfl rfl rfl

end AptitudeAI

namespace AptitudeAI

/-! ### Claim C3 — the loader and the correct-index invariant -/

/-- C3 (counterexample): the raw record `badRecord` has four options and
answer letter "Z"; the loader emits it unchanged as a normalized question
with `correct = 25`, violating `0 <= correctIndex < length(options)` —
the loader does NOT guard this edge case. -/
theorem claim_C3_counterexample :
    (allQuestions (loadCategories [badRecord])).map
        (fun q => (q.correct, q.options.length, correctIndexInRange q)) =
      [(some 25, 4, false)] := by
  decide

/-- C3 (amended): the loader applies no guard: every raw record yields a
normalized question whose `correct` field is exactly the ASCII decode of
the first character of its answer letter, and the invariant
`0 <= correctIndex < length(options)` holds iff that character lies in
`'A' .. 'A' + length(options) - 1`. -/
theorem claim_C3 (i : Nat) (r : RawQuestion) :
    (formatQuestion i r).options = r.options ∧
    (formatQuestion i r).correct =
      (r.answer.toList.head?).map (fun ch => (ch.toNat : Int) - 65) ∧
    (correctIndexInRange (formatQuestion i r) = true ↔
      ∃ ch, r.answer.toList.head? = some ch ∧
        65 ≤ ch.toNat ∧ ch.toNat < 65 + r.options.length) := by
  refine ⟨rfl, rfl, ?_⟩
  unfold correctIndexInRange formatQuestion decodeAnswer
  cases h : r.answer.toList.head? with
  | none => simp [h]
  | some ch =>
    simp only [h, Option.map_some']
    constructor
    · intro hb
      have hb2 : (0 : Int) ≤ (ch.toNat : Int) - 65 ∧
          (ch.toNat : Int) - 65 < (r.options.length : Int) := by
        simpa [Bool.and_eq_true, decide_eq_true_eq] using hb
      exact ⟨ch, rfl, by omega, by omega⟩
    · rintro ⟨ch2, hch, h1, h2⟩
      injection hch with hch
      subst hch
      simp only [Bool.and_eq_true, decide_eq_true_eq]
      exact ⟨by omega, by omega⟩

/-! ### Claim C4 — submitAnswer is idempotent per question -/

/-- C4: once an answer has been submitted for the current question
(so `showExplanation` is true in the state `t` the first call produced),
a second `submitAnswer` with any index returns the state unchanged:
`answers` and `score` stay exactly as after the first call and no
transition happens. -/
theorem claim_C4 (s t : AppModel) (i j : Nat)
    (hse : s.showExplanation = false) (h : handleAnswer s i = some t) :
    handleAnswer t j = some t := by
  unfold handleAnswer at h
  rw [hse] at h
  simp only [Bool.false_eq_true, if_false] at h
  split at h
  · exact absurd h (by simp)
  · split at h
    · exact absurd h (by simp)
    · simp only [Option.some.injEq] at h
      subst h
      unfold handleAnswer
      simp

/-- C4 (witness): answering question 0 of the demo category with index 1
gives `demoAnswered`; a repeated submission with index 0 is the identity. -/
theorem claim_C4_witness : handleAnswer demoAnswered 0 = some demoAnswered :=
  claim_C4 demoTesting demoAnswered 1 0 rfl (by decide)

/-! ### Claim C7 — selectCategory creates a fresh session -/

/-- C7: from ANY prior state, selecting category `c` puts the app in
Testing with the selected category, index 0, empty answers, zero score
and no pending feedback — nothing from an earlier session is carried
over (only the voice toggle, which is not session state, persists). -/
theorem claim_C7 (s : AppModel) (c : TestCategory) :
    handleCategorySelect s c =
      { currentState := AppState.testing
        selectedCategory := some c
        currentQuestionIndex := 0
        userAnswers := []
        showExplanation := false
        score := 0
        voiceOn := s.voiceOn } :=
  rfl

/-! ### Claim C9 — the category slug -/

/-- C9: the slug is a pure function of the category name that lowercases
it and collapses every whitespace run into a single hyphen: concretely
`slugify "Computer Knowledge" = "computer-knowledge"`, and in general,
for a name consisting of a whitespace-free prefix, a non-empty whitespace
run, and a whitespace-free suffix, the slug is the lowercased prefix, one
hyphen, and the lowercased suffix. -/
theorem claim_C9 :
    slugify "Computer Knowledge" = "computer-knowledge" ∧
    ∀ (u w v : List Char),
      (∀ c ∈ u, isWs c = false) → (∀ c ∈ w, isWs c = true) → w ≠ [] →
      (∀ c ∈ v, isWs c = false) →
      slugify (String.mk (u ++ w ++ v)) =
        String.mk (u.map jsLower ++ '-' :: v.map jsLower) := by
  constructor
  · decide
  · intro u w v hu hw hne hv
    unfold slugify
    have htl : (String.mk (u ++ w ++ v)).toList = u ++ w ++ v := rfl
    rw [htl, List.map_append, List.map_append, List.append_assoc]
    rw [collapseWsAux_nonWs_append (u.map jsLower) _
      (fun c hc => by
        obtain ⟨c0, hc0, rfl⟩ := List.mem_map.mp hc
        rw [isWs_jsLower]; exact hu c0 hc0)]
    rw [collapseWsAux_wsRun (w.map jsLower) _
      (fun c hc => by
        obtain ⟨c0, hc0, rfl⟩ := List.mem_map.mp hc
        rw [isWs_jsLower]; exact hw c0 hc0)
      (by simpa using hne)]
    rw [collapseWsAux_nonWs_id (v.map jsLower) true
      (fun c hc => by
        obtain ⟨c0, hc0, rfl⟩ := List.mem_map.mp hc
        rw [isWs_jsLower]; exact hv c0 hc0)]

/-- C9 (witness): the general run-collapse statement at "a b". -/
theorem claim_C9_witness :
    slugify (String.mk (['a'] ++ [' '] ++ ['b'])) =
      String.mk (['a'].map jsLower ++ '-' :: ['b'].map jsLower) :=
  claim_C9.2 ['a'] [' '] ['b'] (by decide) (by decide) (by decide) (by decide)

/-! ### Claim C10 — malformed questions can never be scored correct -/

/-- C10: if the current question's `correct` index is out of range
(or `NaN`), then submitting any index inside the valid option range
records the answer but never increments the score. -/
theorem claim_C10 (s : AppModel) (c : TestCategory) (q : Question) (i : Nat)
    (hse : s.showExplanation = false) (hc : s.selectedCategory = some c)
    (hq : c.questions.get? s.currentQuestionIndex = some q)
    (hbad : correctIndexInRange q = false) (hi : i < q.options.length) :
    handleAnswer s i =
      some { s with userAnswers := s.userAnswers ++ [i]
                    showExplanation := true } := by
  have hne : ¬ (q.correct = some (i : Int)) := by
    intro he
    unfold correctIndexInRange at hbad
    rw [he] at hbad
    simp only [Bool.and_eq_false_iff, decide_eq_false_iff_not, not_le,
      not_lt] at hbad
    omega
  unfold handleAnswer
  rw [hse]
  simp only [Bool.false_eq_true, if_false, hc, hq]
  rw [if_neg hne]

/-- C10 (witness): in `badTesting` (current question has `correct = 25`
with four options) submitting option 0 appends the answer and leaves the
score at 0. -/
theorem claim_C10_witness :
    handleAnswer badTesting 0 =
      some { badTesting with userAnswers := [0], showExplanation := true } :=
  claim_C10 badTesting badCat badQuestion 0 rfl rfl rfl (by decide) (by decide)

end AptitudeAI

namespace AptitudeAI

/-! ### Claim C8 — grouping partitions the input -/

theorem flatten_insertGrouped (g : List (String × List Question))
    (cat : String) (q : Question) :
    List.Perm (((insertGrouped g cat q).map Prod.snd).flatten)
      (((g.map Prod.snd).flatten) ++ [q]) := by
  induction g with
  | nil => simp [insertGrouped]
  | cons p rest ih =>
    obtain ⟨c, qs⟩ := p
    by_cases hc : c = cat
    · simp only [insertGrouped, if_pos hc, List.map_cons, List.flatten_cons]
      rw [List.append_assoc, List.append_assoc]
      exact List.Perm.append_left qs List.perm_append_comm
    · simp only [insertGrouped, if_neg hc, List.map_cons, List.flatten_cons]
      rw [List.append_assoc]
      exact List.Perm.append_left qs ih

theorem flatten_buildGrouped (l : List (Nat × RawQuestion))
    (g : List (String × List Question)) :
    List.Perm (((buildGrouped g l).map Prod.snd).flatten)
      (((g.map Prod.snd).flatten) ++
        l.map (fun iq => formatQuestion iq.1 iq.2)) := by
  induction l generalizing g with
  | nil => simp [buildGrouped]
  | cons iq rest ih =>
    simp only [buildGrouped, List.map_cons]
    refine (ih _).trans ?_
    refine (List.Perm.append_right _ (flatten_insertGrouped g _ _)).trans ?_
    rw [List.append_assoc, List.singleton_append]

theorem allQuestions_loadCategories (data : List RawQuestion) :
    allQuestions (loadCategories data) =
      ((groupQuestions data).map Prod.snd).flatten := by
  unfold allQuestions loadCategories
  rw [List.map_map]
  rfl

/-- C8: the loader's grouping partitions the input: the bucket sizes sum
to the number of raw records, and the multiset of assigned ids is exactly
`{1, …, n}` (ids are sequential over the full input, starting at 1). -/
theorem claim_C8 (data : List RawQuestion) :
    ((loadCategories data).map (fun c => c.questions.length)).sum =
      data.length ∧
    List.Perm ((allQuestions (loadCategories data)).map Question.id)
      ((List.range data.length).map (fun n => n + 1)) := by
  have hperm : List.Perm (allQuestions (loadCategories data))
      (data.enum.map fun iq => formatQuestion iq.1 iq.2) := by
    rw [allQuestions_loadCategories]
    simpa using flatten_buildGrouped data.enum []
  constructor
  · have h1 : ((loadCategories data).map (fun c => c.questions.length)).sum
        = (allQuestions (loadCategories data)).length := by
      unfold allQuestions
      rw [List.length_flatten, List.map_map]
      rfl
    rw [h1, hperm.length_eq]
    simp [List.enum_eq_enumFrom]
  · refine (hperm.map Question.id).trans ?_
    rw [List.map_map]
    have h2 : (Question.id ∘ fun iq : Nat × RawQuestion =>
        formatQuestion iq.1 iq.2) = ((fun n => n + 1) ∘ Prod.fst) := rfl
    rw [h2, ← List.map_map, List.enum_eq_enumFrom, List.enumFrom_map_fst,
      List.range_eq_range']

end AptitudeAI

namespace AptitudeAI

/-! ### The session invariant (claims C5, C6) -/

theorem selectedCategory_eq_none_of_inv {cats : List TestCategory}
    {s : AppModel} (hs : SessionInv cats s)
    (h1 : s.currentState ≠ AppState.testing)
    (h2 : s.currentState ≠ AppState.results) :
    s.selectedCategory = none := by
  unfold SessionInv at hs
  cases hsel : s.selectedCategory with
  | none => rfl
  | some c =>
    rw [hsel] at hs
    rcases hs.2.2.2 with ⟨hT, -⟩ | ⟨hR, -⟩
    · exact absurd hT h1
    · exact absurd hR h2

theorem step_preserves {cats : List TestCategory}
    (hcats : ∀ c ∈ cats, 0 < c.questions.length)
    {s t : AppModel} (hs : SessionInv cats s) (hst : Step cats s t) :
    SessionInv cats t := by
  cases hst with
  | start hw =>
    have hnone := selectedCategory_eq_none_of_inv hs
      (by simp [hw]) (by simp [hw])
    simp only [SessionInv, handleStart, hnone] at hs ⊢
    exact hs
  | select c hcs hmem =>
    exact ⟨hmem, rfl, hcats c hmem, Or.inl ⟨rfl, rfl⟩⟩
  | answer t i hT hse hA =>
    unfold handleAnswer at hA
    rw [hse] at hA
    simp only [Bool.false_eq_true, if_false] at hA
    split at hA
    · simp at hA
    · rename_i c heq
      split at hA
      · simp at hA
      · rename_i q heq2
        simp only [Option.some.injEq] at hA
        subst hA
        simp only [SessionInv, heq] at hs ⊢
        obtain ⟨hmem, hscore, hidx, hdisj⟩ := hs
        rcases hdisj with ⟨-, hlen⟩ | ⟨hR, -⟩
        · rw [hse] at hlen
          simp only [Bool.false_eq_true, if_false, Nat.add_zero] at hlen
          refine ⟨hmem, ?_, hidx, Or.inl ⟨hT, ?_⟩⟩
          · rw [countCorrect_append s.userAnswers c.questions i q
              (by rw [hlen]; exact heq2), ← hscore]
            split <;> omega
          · simp [hlen]
        · exact absurd (hT.symm.trans hR) (by decide)
  | next t hT hse hN =>
    unfold handleNext at hN
    split at hN
    · simp at hN
    · rename_i c heq
      split at hN
      · rename_i hlt
        simp only [Option.some.injEq] at hN
        subst hN
        simp only [SessionInv, heq] at hs ⊢
        obtain ⟨hmem, hscore, hidx, hdisj⟩ := hs
        rcases hdisj with ⟨-, hlen⟩ | ⟨hR, -⟩
        · rw [hse] at hlen
          simp only [if_true] at hlen
          refine ⟨hmem, hscore, by omega, Or.inl ⟨hT, ?_⟩⟩
          simp [hlen]
        · exact absurd (hT.symm.trans hR) (by decide)
      · rename_i hge
        simp only [Option.some.injEq] at hN
        subst hN
        simp only [SessionInv, heq] at hs ⊢
        obtain ⟨hmem, hscore, hidx, hdisj⟩ := hs
        rcases hdisj with ⟨-, hlen⟩ | ⟨hR, -⟩
        · rw [hse] at hlen
          simp only [if_true] at hlen
          refine ⟨hmem, hscore, hidx, Or.inr ⟨?_, ?_⟩⟩
          · trivial
          · omega
        · exact absurd (hT.symm.trans hR) (by decide)
  | reset hR =>
    exact ⟨rfl, rfl⟩
  | toggle hT =>
    cases hsel : s.selectedCategory with
    | none =>
      simp only [SessionInv, toggleVoice, hsel] at hs ⊢
      exact hs
    | some c =>
      simp only [SessionInv, toggleVoice, hsel] at hs ⊢
      exact hs

theorem reachable_inv {cats : List TestCategory}
    (hcats : ∀ c ∈ cats, 0 < c.questions.length)
    {s : AppModel} (h : Reachable cats s) : SessionInv cats s := by
  unfold Reachable at h
  induction h with
  | refl => exact ⟨rfl, rfl⟩
  | tail _ hstep ih => exact step_preserves hcats ih hstep

theorem demoReach : Reachable [demoCat] demoTesting := by
  have h1 : Step [demoCat] initialState demoSelecting :=
    Step.start initialState rfl
  have h2 : Step [demoCat] demoSelecting demoTesting :=
    Step.select demoSelecting demoCat rfl (by simp)
  exact Relation.ReflTransGen.tail
    (Relation.ReflTransGen.tail Relation.ReflTransGen.refl h1) h2

/-- C5: in every reachable state with a selected category,
`score = countCorrect answers questions`,
`score <= length answers <= totalQuestions`; and each successful
`submitAnswer` appends exactly one entry to `answers` and adds exactly
one to `score` iff the submitted index equals the current question's
correct index. -/
theorem claim_C5 (cats : List TestCategory)
    (hcats : ∀ c ∈ cats, 0 < c.questions.length) :
    (∀ s c, Reachable cats s → s.selectedCategory = some c →
      s.score = countCorrect s.userAnswers c.questions ∧
      s.score ≤ s.userAnswers.length ∧
      s.userAnswers.length ≤ c.questions.length) ∧
    (∀ s t c q i, s.showExplanation = false →
      s.selectedCategory = some c →
      c.questions.get? s.currentQuestionIndex = some q →
      handleAnswer s i = some t →
      t.userAnswers = s.userAnswers ++ [i] ∧
      t.score = s.score + (if q.correct = some (i : Int) then 1 else 0)) := by
  constructor
  · intro s c hreach hsel
    have hs := reachable_inv hcats hreach
    simp only [SessionInv, hsel] at hs
    obtain ⟨hmem, hscore, hidx, hdisj⟩ := hs
    refine ⟨hscore, ?_, ?_⟩
    · rw [hscore]
      exact countCorrect_le_length _ _
    · rcases hdisj with ⟨-, hlen⟩ | ⟨-, hlen⟩
      · split at hlen <;> omega
      · omega
  · intro s t c q i hse hsel hq hA
    unfold handleAnswer at hA
    rw [hse] at hA
    simp only [Bool.false_eq_true, if_false, hsel, hq, Option.some.injEq] at hA
    subst hA
    refine ⟨rfl, ?_⟩
    show (if q.correct = some (i : Int) then s.score + 1 else s.score) = _
    split <;> omega

/-- C5 (witness): the invariant at the reachable state `demoTesting`, and
the submit effect of answering its first question correctly. -/
theorem claim_C5_witness :
    (demoTesting.score = countCorrect demoTesting.userAnswers demoCat.questions ∧
      demoTesting.score ≤ demoTesting.userAnswers.length ∧
      demoTesting.userAnswers.length ≤ demoCat.questions.length) ∧
    (demoAnswered.userAnswers = demoTesting.userAnswers ++ [1] ∧
      demoAnswered.score = demoTesting.score + 1) := by
  have h := claim_C5 [demoCat] (by decide)
  refine ⟨h.1 demoTesting demoCat demoReach rfl, ?_⟩
  have h2 := h.2 demoTesting demoAnswered demoCat
    { id := 1, question := "Q1", options := ["a", "b"],
      correct := some 1, explanation := none }
    1 rfl rfl rfl (by decide)
  simpa using h2

/-- C6: with the current question answered, `advance()` transitions to
Results when `currentIndex` is the last index and otherwise increments
`currentIndex` and clears the feedback flag; and in every reachable state
with a selected category, `currentIndex < length(category.questions)`. -/
theorem claim_C6 (cats : List TestCategory)
    (hcats : ∀ c ∈ cats, 0 < c.questions.length) :
    (∀ s c, s.currentState = AppState.testing →
      s.selectedCategory = some c → s.showExplanation = true →
      s.currentQuestionIndex < c.questions.length →
      (s.currentQuestionIndex = c.questions.length - 1 →
        handleNext s = some { s with currentState := AppState.results }) ∧
      (s.currentQuestionIndex < c.questions.length - 1 →
        handleNext s = some { s with
          currentQuestionIndex := s.currentQuestionIndex + 1
          showExplanation := false })) ∧
    (∀ s c, Reachable cats s → s.selectedCategory = some c →
      s.currentQuestionIndex < c.questions.length) := by
  constructor
  · intro s c hT hsel hse hidx
    constructor
    · intro hlast
      simp only [handleNext, hsel]
      rw [if_neg (by omega)]
    · intro hlt
      simp only [handleNext, hsel]
      rw [if_pos hlt]
  · intro s c hreach hsel
    have hs := reachable_inv hcats hreach
    simp only [SessionInv, hsel] at hs
    exact hs.2.2.1

/-- C6 (witness): advancing from the answered first demo question moves to
index 1, and the reachable state `demoTesting` has its index in bounds. -/
theorem claim_C6_witness :
    handleNext demoAnswered =
      some { demoAnswered with currentQuestionIndex := 1
                               showExplanation := false } ∧
    demoTesting.currentQuestionIndex < demoCat.questions.length := by
  constructor
  · exact ((claim_C6 [demoCat] (by decide)).1 demoAnswered demoCat
      rfl rfl rfl (by decide)).2 (by decide)
  · exact (claim_C6 [demoCat] (by decide)).2 demoTesting demoCat demoReach rfl

end AptitudeAI
